import Mathlib

/-!
# Verification of the TMI client (`src/lib.rs`)

Shallow embedding of the Twitch Messaging Interface client: the wire
parser `parse_message`, the handshake (`authenticate`, `join_all`), the
send path, and one iteration of the receive loop with keepalive
handling.  Rust strings are modelled as `List Char`; Rust `split` on a
one-character pattern is `List.splitOn`, `join`/`replace` and the
two-character split on the line terminator get bespoke definitions
below.  Operations that can panic in Rust (`unwrap`, out-of-bounds
slicing, `Vec::drain` on an empty vector) are modelled with `Option`,
`none` standing for the panic.
-/

/-- Rust strings, modelled character by character. -/
abbrev Str := List Char

/-- Coerce a Lean string literal into the model. -/
def strOf (s : String) : Str := s.data

/-- The parsed content of a TMI message (struct `DecodedMessage`).
The `HashMap<String, String>` is modelled as an association list; see
`insertKV` for the map-insertion semantics. -/
structure DecodedMessage where
  metadata : List (Str × Str)
  «from» : Str
  command : Str
  target : Option Str
  params : Str
deriving DecidableEq, Repr

/-- `HashMap::insert`: overwrite the value if the key is present,
otherwise add the binding. -/
def insertKV (m : List (Str × Str)) (k v : Str) : List (Str × Str) :=
  if m.any (fun p => p.1 = k) then
    m.map (fun p => if p.1 = k then (k, v) else p)
  else m ++ [(k, v)]

/-- `HashMap::get`: the value bound to `k`, if any. -/
def lookupKV (m : List (Str × Str)) (k : Str) : Option Str :=
  (m.find? (fun p => p.1 = k)).map (fun p => p.2)

/-- Recursion core of `replaceStr`, structural on a fuel argument so
that concrete instances reduce in the kernel.  The fuel never runs out
when it starts at the length of the string (`replaceFuel_irrel`). -/
def replaceFuel (pat rep : Str) : Nat → Str → Str
  | _, [] => []
  | 0, s => s
  | n + 1, c :: rest =>
    if pat ≠ [] ∧ pat.isPrefixOf (c :: rest) then
      rep ++ replaceFuel pat rep n ((c :: rest).drop pat.length)
    else
      c :: replaceFuel pat rep n rest

/-- Rust `str::replace` with a fixed pattern: replace every
non-overlapping occurrence of `pat` in `s` with `rep`, scanning left to
right. -/
def replaceStr (pat rep s : Str) : Str := replaceFuel pat rep s.length s

/-- Recursion core of `splitStr`, structural on a fuel argument. -/
def splitFuel (pat : Str) : Nat → Str → List Str
  | _, [] => [[]]
  | 0, s => [s]
  | n + 1, c :: rest =>
    if pat ≠ [] ∧ pat.isPrefixOf (c :: rest) then
      [] :: splitFuel pat n ((c :: rest).drop pat.length)
    else
      match splitFuel pat n rest with
      | [] => [[c]]
      | s :: ss => (c :: s) :: ss

/-- Rust `str::split` with a fixed multi-character pattern (used for the
`"\r\n"` line terminator). -/
def splitStr (pat s : Str) : List Str := splitFuel pat s.length s

/-- Rust `str::trim`: strip whitespace from both ends. -/
def trimStr (s : Str) : Str :=
  ((s.dropWhile Char.isWhitespace).reverse.dropWhile Char.isWhitespace).reverse

/-!
## The wire parser (`parse_message`, lib.rs:148-193)

`parse_message` is split into `parseTags` (the metadata loop at
lib.rs:153-157) and `parseChunks` (the rest, operating on the result of
`message.split(" ")`).  The `Option` result models Rust panics: `none`
is the panic of `Vec::drain(0..1)` on an empty vector or of the byte
slice `&s[1..]` on an empty string.
-/

/-- One tag entry (lib.rs:154-156): `parts = entry.split("=")`, the key
is `parts[0]` and the value is `parts[1..].join("=")` — a split on the
first `=` only, with the remainder rejoined. -/
def entryKV (entry : Str) : Str × Str :=
  let parts := entry.splitOn '='
  (parts.headD [], List.intercalate ['='] parts.tail)

/-- The metadata loop (lib.rs:153-157).  Note that the tag token is the
whole first chunk, still carrying its leading `@`: the Rust code splits
`chunks[0]` on `;` without stripping the `@` first. -/
def parseTags (tagTok : Str) : List (Str × Str) :=
  (tagTok.splitOn ';').foldl
    (fun m entry => insertKV m (entryKV entry).1 (entryKV entry).2)
    []

/-- The `from` computation (lib.rs:162-169) applied to the prefix token:
drop the first character (the byte slice `[1..]`), take the part before
the first `@`, then the part of that before the first `!`. -/
def fromField (fromTok : Str) : Str :=
  ((fromTok.tail.splitOn '@').headD []).splitOn '!' |>.headD []

/-- The `params` computation (lib.rs:179-183) on the chunks remaining
after the target: rejoin with single spaces, then strip one leading
`:` if present. -/
def paramsField (rest : List Str) : Str :=
  let params0 := List.intercalate [' '] rest
  if params0.head? = some ':' then params0.tail else params0

/-- `parse_message` after tokenisation (lib.rs:150-192), on the chunk
list produced by `message.split(" ")`. -/
def parseChunks (chunks0 : List Str) : Option DecodedMessage :=
  let st :=
    match chunks0 with
    | c0 :: rest =>
      if c0.head? = some '@' then (parseTags c0, rest) else ([], c0 :: rest)
    | [] => (([] : List (Str × Str)), ([] : List Str))
  match st.2 with
  | [] => none
  | fromTok :: chunks1 =>
    match fromTok with
    | [] => none
    | _ :: _ =>
      match chunks1 with
      | [] => none
      | cmdTok :: chunks2 =>
        match chunks2 with
        | [] => some ⟨st.1, fromField fromTok, cmdTok, none, []⟩
        | t :: rest =>
          some ⟨st.1, fromField fromTok, cmdTok, some t, paramsField rest⟩

/-- `parse_message` (lib.rs:148): tokenise on single spaces and parse. -/
def parse_message (message : Str) : Option DecodedMessage :=
  parseChunks (message.splitOn ' ')

/-!
## Session: handshake and send path (lib.rs:60-112)
-/

/-- The capability-request line sent first by `authenticate`. -/
def capLine : Str :=
  strOf "CAP REQ :twitch.tv/tags twitch.tv/commands twitch.tv/membership"

/-- The three lines `authenticate` sends, in order (lib.rs:87-94). -/
def authenticateLines (oauth nick : Str) : List Str :=
  [capLine, strOf "PASS " ++ oauth, strOf "NICK " ++ nick]

/-- The JOIN lines `join_all` sends (lib.rs:96-104): nothing when the
room list is empty, otherwise one `JOIN <room>` per room in order. -/
def join_all (rooms : List Str) : List Str :=
  if rooms.length = 0 then [] else rooms.map (fun r => strOf "JOIN " ++ r)

/-- All lines sent during `Tmi::new` (authenticate then join_all,
lib.rs:82-83). -/
def handshakeLines (oauth nick : Str) (rooms : List Str) : List Str :=
  authenticateLines oauth nick ++ join_all rooms

/-- `Tmi::send` (lib.rs:107-112): `Message::from(message)` is a text
frame whose payload is exactly the argument string; `send` appends
nothing to it. -/
def sendPayload (message : Str) : Str := message

/-- Sequential `self.send(..).unwrap()` calls against a transport where
`ok l` says whether sending line `l` succeeds.  Returns the lines whose
send was attempted, and `true` iff no `unwrap` panicked; a `false`
second component is the panic propagating out of `Tmi::new` to its
caller. -/
def sendAll (ok : Str → Bool) : List Str → List Str × Bool
  | [] => ([], true)
  | l :: ls =>
    if ok l then
      let out := sendAll ok ls
      (l :: out.1, out.2)
    else ([l], false)

/-!
## Receive loop (`Tmi::start`, lib.rs:120-146)

One read from the transport is trimmed, defensively re-split on
`"\r\n"`, and each sub-line is either answered (PING) or parsed and
queued.  `runLoop` returns the PONG writes in order, the queued
messages in order, and `true` iff no sub-line made the thread panic.
-/

/-- The keepalive patterns of lib.rs:134-136. -/
def pingPat : Str := strOf "PING "

/-- See `pingPat`. -/
def pongPat : Str := strOf "PONG "

/-- The per-sub-line loop body (lib.rs:133-141). -/
def runLoop : List Str → List Str × List DecodedMessage × Bool
  | [] => ([], [], true)
  | line :: rest =>
    if pingPat.isPrefixOf line then
      let out := runLoop rest
      (replaceStr pingPat pongPat line :: out.1, out.2.1, out.2.2)
    else
      match parse_message line with
      | some m =>
        let out := runLoop rest
        (out.1, m :: out.2.1, out.2.2)
      | none => ([], [], false)

/-- The sub-lines of one transport read (lib.rs:128-131): trim, then
split on the line terminator. -/
def subLines (message : Str) : List Str :=
  splitStr (strOf "\r\n") (trimStr message)

/-- One full iteration of the receive loop on one transport read. -/
def processRead (message : Str) : List Str × List DecodedMessage × Bool :=
  runLoop (subLines message)

/-- The spec's first end-to-end example line. -/
def exampleLine : Str :=
  strOf "@badge-info=;badges=broadcaster/1;color=#FF0000 :steve!steve@steve.tmi.twitch.tv PRIVMSG #madhousesteve :Hello World"

/-- A concrete multi-line transport read used as a test vector. -/
def exRead : Str := strOf "PING :a\r\n:n B\r\n:m C t :hi there"

/-!
## Helper lemmas
-/

theorem parseChunks_cons (pre cmd : Str) (rest : List Str)
    (h1 : pre.head? ≠ some '@') (h2 : pre ≠ []) :
    parseChunks (pre :: cmd :: rest) =
      some ⟨[], fromField pre, cmd, rest.head?, paramsField rest.tail⟩ := by
  obtain ⟨c, cs, rfl⟩ := List.exists_cons_of_ne_nil h2
  simp only [List.head?, ne_eq, Option.some.injEq] at h1
  cases rest with
  | nil => simp [parseChunks, h1, paramsField, List.intercalate]
  | cons t ps => simp [parseChunks, h1]

theorem parseChunks_tagged (tagTok fromTok cmd : Str) (rest : List Str)
    (h1 : tagTok.head? = some '@') (h2 : fromTok ≠ []) :
    parseChunks (tagTok :: fromTok :: cmd :: rest) =
      some ⟨parseTags tagTok, fromField fromTok, cmd, rest.head?, paramsField rest.tail⟩ := by
  obtain ⟨c, cs, rfl⟩ := List.exists_cons_of_ne_nil h2
  cases rest with
  | nil => simp [parseChunks, h1, paramsField, List.intercalate]
  | cons t ps => simp [parseChunks, h1]

/-- A one-chunk line always panics: after the optional tag block there
is no token left either for `from` or for the command, and the
corresponding `drain(0..1).next().unwrap()` (or the slice `[1..]` on an
empty chunk) panics. -/
theorem parseChunks_singleton (c : Str) : parseChunks [c] = none := by
  by_cases h : c.head? = some '@'
  · simp [parseChunks, h]
  · cases c with
    | nil => simp [parseChunks]
    | cons x xs =>
      simp only [List.head?, Option.some.injEq] at h
      simp [parseChunks, h]

/-- A tag block followed by a single token also panics: the command
drain finds the chunk list empty. -/
theorem parseChunks_tag_one (tagTok c : Str) (h : tagTok.head? = some '@') :
    parseChunks [tagTok, c] = none := by
  cases c with
  | nil => simp [parseChunks, h]
  | cons x xs => simp [parseChunks, h]

theorem splitOn_headD_first (c : Char) (xs as : Str) (h : c ∉ xs) :
    ((xs ++ c :: as).splitOn c).headD [] = xs := by
  have hs := List.splitOnP_first (fun x => x == c) xs
    (fun x hx => by simp only [Bool.not_eq_true, beq_eq_false_iff_ne, ne_eq]; rintro rfl; exact h hx)
    c (by simp) as
  rw [List.splitOn, hs]
  rfl

theorem splitOn_headD_single (c : Char) (xs : Str) (h : c ∉ xs) :
    (xs.splitOn c).headD [] = xs := by
  have hs := List.splitOnP_eq_single (fun x => x == c) xs
    (fun x hx => by simp only [Bool.not_eq_true, beq_eq_false_iff_ne, ne_eq]; rintro rfl; exact h hx)
  rw [List.splitOn, hs]
  rfl

theorem entryKV_eq (k v : Str) (h : '=' ∉ k) : entryKV (k ++ '=' :: v) = (k, v) := by
  have hs := List.splitOnP_first (fun x => x == '=') k
    (fun x hx => by simp only [Bool.not_eq_true, beq_eq_false_iff_ne, ne_eq]; rintro rfl; exact h hx)
    '=' (by simp) v
  unfold entryKV
  rw [List.splitOn, hs]
  simpa using List.intercalate_splitOn v '='

theorem entryKV_no_sep (e : Str) (h : '=' ∉ e) : entryKV e = (e, []) := by
  have hs := List.splitOnP_eq_single (fun x => x == '=') e
    (fun x hx => by simp only [Bool.not_eq_true, beq_eq_false_iff_ne, ne_eq]; rintro rfl; exact h hx)
  unfold entryKV
  rw [List.splitOn, hs]
  simp [List.intercalate]

theorem find?_map_insert (m : List (Str × Str)) (k v : Str)
    (hA : m.any (fun p => p.1 = k)) :
    ((m.map (fun p => if p.1 = k then (k, v) else p)).find?
        (fun p => p.1 = k)).map Prod.snd = some v := by
  induction m with
  | nil => simp at hA
  | cons p ps ih =>
    by_cases hp : p.1 = k
    · rw [List.map_cons, if_pos hp, List.find?_cons_of_pos _ (by simp)]
      rfl
    · have hA2 : ps.any (fun p => p.1 = k) := by
        simp only [List.any_cons, Bool.or_eq_true, decide_eq_true_eq] at hA
        rcases hA with h | h
        · exact absurd h hp
        · exact h
      rw [List.map_cons, if_neg hp, List.find?_cons_of_neg _ (by simp [hp])]
      exact ih hA2

theorem find?_map_insert_ne (m : List (Str × Str)) (k v q : Str) (hkq : k ≠ q) :
    (m.map (fun p => if p.1 = k then (k, v) else p)).find? (fun p => p.1 = q) =
      m.find? (fun p => p.1 = q) := by
  induction m with
  | nil => rfl
  | cons p ps ih =>
    by_cases hp : p.1 = k
    · have hq : ¬ p.1 = q := by rw [hp]; exact hkq
      rw [List.map_cons, if_pos hp, List.find?_cons_of_neg _ (by simp [hkq]),
        List.find?_cons_of_neg _ (by simp [hq])]
      exact ih
    · by_cases hq : p.1 = q
      · rw [List.map_cons, if_neg hp, List.find?_cons_of_pos _ (by simp [hq]),
          List.find?_cons_of_pos _ (by simp [hq])]
      · rw [List.map_cons, if_neg hp, List.find?_cons_of_neg _ (by simp [hq]),
          List.find?_cons_of_neg _ (by simp [hq])]
        exact ih

theorem lookupKV_insertKV (m : List (Str × Str)) (k v q : Str) :
    lookupKV (insertKV m k v) q = if k = q then some v else lookupKV m q := by
  unfold insertKV lookupKV
  by_cases hA : m.any (fun p => p.1 = k)
  · rw [if_pos hA]
    by_cases hkq : k = q
    · subst hkq
      rw [if_pos rfl]
      exact find?_map_insert m k v hA
    · rw [if_neg hkq, find?_map_insert_ne m k v q hkq]
  · rw [if_neg hA]
    rw [List.find?_append]
    by_cases hkq : k = q
    · subst hkq
      have hnone : m.find? (fun p => p.1 = k) = none := by
        rw [List.find?_eq_none]
        intro p hp
        simp only [decide_eq_true_eq]
        intro hc
        exact hA (List.any_eq_true.mpr ⟨p, hp, by simp [hc]⟩)
      simp [hnone]
    · have hone : ([(k, v)].find? (fun p => p.1 = q)) = none := by
        simp [hkq]
      simp [hone, hkq]

theorem map_fst_overwrite (m : List (Str × Str)) (k v : Str) :
    (m.map (fun p => if p.1 = k then (k, v) else p)).map Prod.fst = m.map Prod.fst := by
  induction m with
  | nil => rfl
  | cons p ps ih =>
    rw [List.map_cons, List.map_cons, List.map_cons, ih]
    by_cases hp : p.1 = k
    · simp [hp]
    · simp [hp]

theorem map_fst_insertKV (m : List (Str × Str)) (k v : Str) :
    (insertKV m k v).map Prod.fst =
      if m.any (fun p => p.1 = k) then m.map Prod.fst else m.map Prod.fst ++ [k] := by
  unfold insertKV
  by_cases hA : m.any (fun p => p.1 = k)
  · simp only [hA, if_true]
    exact map_fst_overwrite m k v
  · simp only [hA, if_false, Bool.false_eq_true, List.map_append]
    rfl

theorem nodup_keys_insertKV (m : List (Str × Str)) (k v : Str)
    (h : (m.map Prod.fst).Nodup) : ((insertKV m k v).map Prod.fst).Nodup := by
  rw [map_fst_insertKV]
  by_cases hA : m.any (fun p => p.1 = k)
  · simpa [hA] using h
  · have hk : k ∉ m.map Prod.fst := by
      intro hmem
      obtain ⟨p, hp, hpk⟩ := List.mem_map.mp hmem
      exact hA (List.any_eq_true.mpr ⟨p, hp, by simp [hpk]⟩)
    simp [hA, List.nodup_append, h, hk]

theorem lookupKV_foldl_insert (es : List (Str × Str)) (m : List (Str × Str)) (q : Str) :
    lookupKV (es.foldl (fun acc e => insertKV acc e.1 e.2) m) q =
      ((es.reverse.find? (fun e => e.1 = q)).map Prod.snd).or (lookupKV m q) := by
  induction es generalizing m with
  | nil => simp
  | cons e es ih =>
    rw [List.foldl_cons, ih, List.reverse_cons, List.find?_append, lookupKV_insertKV]
    cases hf : es.reverse.find? (fun p => p.1 = q) with
    | some a => simp [hf]
    | none =>
      by_cases he : e.1 = q <;> simp [hf, he]

theorem nodup_keys_foldl_insert (es : List (Str × Str)) (m : List (Str × Str))
    (h : (m.map Prod.fst).Nodup) :
    ((es.foldl (fun acc e => insertKV acc e.1 e.2) m).map Prod.fst).Nodup := by
  induction es generalizing m with
  | nil => exact h
  | cons e es ih => exact ih _ (nodup_keys_insertKV _ _ _ h)

theorem lookupKV_parseTags (tagTok q : Str) :
    lookupKV (parseTags tagTok) q =
      (((tagTok.splitOn ';').map entryKV).reverse.find? (fun e => e.1 = q)).map Prod.snd := by
  unfold parseTags
  have hfold : ((tagTok.splitOn ';').foldl
      (fun m entry => insertKV m (entryKV entry).1 (entryKV entry).2) []) =
      (((tagTok.splitOn ';').map entryKV).foldl (fun acc e => insertKV acc e.1 e.2) []) := by
    rw [List.foldl_map]
  rw [hfold, lookupKV_foldl_insert]
  simp [lookupKV]

theorem nodup_keys_parseTags (tagTok : Str) :
    ((parseTags tagTok).map Prod.fst).Nodup := by
  unfold parseTags
  have hfold : ((tagTok.splitOn ';').foldl
      (fun m entry => insertKV m (entryKV entry).1 (entryKV entry).2) []) =
      (((tagTok.splitOn ';').map entryKV).foldl (fun acc e => insertKV acc e.1 e.2) []) := by
    rw [List.foldl_map]
  rw [hfold]
  exact nodup_keys_foldl_insert _ [] (by simp)

theorem sendAll_flag (ok : Str → Bool) (ls : List Str) :
    (sendAll ok ls).2 = true ↔ ∀ l ∈ ls, ok l = true := by
  induction ls with
  | nil => simp [sendAll]
  | cons l ls ih => by_cases h : ok l <;> simp [sendAll, h, ih]

theorem sendAll_lines (ok : Str → Bool) (ls : List Str) (h : ∀ l ∈ ls, ok l = true) :
    (sendAll ok ls).1 = ls := by
  induction ls with
  | nil => rfl
  | cons l ls ih =>
    simp [sendAll, h l (by simp), ih (fun x hx => h x (by simp [hx]))]

theorem runLoop_eq (lines : List Str)
    (hp : ∀ l ∈ lines, pingPat.isPrefixOf l = false → (parse_message l).isSome) :
    runLoop lines =
      ((lines.filter (fun l => pingPat.isPrefixOf l)).map (replaceStr pingPat pongPat),
       (lines.filter (fun l => !(pingPat.isPrefixOf l))).filterMap parse_message,
       true) := by
  induction lines with
  | nil => rfl
  | cons l ls ih =>
    have ihh := ih (fun x hx hnp => hp x (by simp [hx]) hnp)
    by_cases h : pingPat.isPrefixOf l
    · simp [runLoop, h, ihh]
    · have hs : (parse_message l).isSome :=
        hp l (by simp) (by simp [h])
      obtain ⟨m, hm⟩ := Option.isSome_iff_exists.mp hs
      simp [runLoop, h, hm, ihh]

theorem replaceFuel_irrel (pat rep : Str) (n : Nat) :
    ∀ (m : Nat) (s : Str), s.length ≤ n → s.length ≤ m →
      replaceFuel pat rep n s = replaceFuel pat rep m s := by
  induction n with
  | zero =>
    intro m s hn _
    have hs : s = [] := List.length_eq_zero.mp (Nat.le_zero.mp hn)
    subst hs
    cases m <;> rfl
  | succ n ih =>
    intro m s hn hm
    cases s with
    | nil => cases m <;> rfl
    | cons c rest =>
      cases m with
      | zero => simp at hm
      | succ m =>
        have hlc : rest.length ≤ n := by simpa using hn
        have hmc : rest.length ≤ m := by simpa using hm
        by_cases h : pat ≠ [] ∧ pat.isPrefixOf (c :: rest)
        · have hpl : 1 ≤ pat.length := by
            have := List.length_pos.mpr h.1
            omega
          have hdl : ((c :: rest).drop pat.length).length ≤ n := by
            simp only [List.length_drop, List.length_cons]
            omega
          have hdm : ((c :: rest).drop pat.length).length ≤ m := by
            simp only [List.length_drop, List.length_cons]
            omega
          simp only [replaceFuel, if_pos h]
          rw [ih _ _ hdl hdm]
        · simp only [replaceFuel, if_neg h]
          rw [ih _ _ hlc hmc]

theorem replaceFuel_no_occ (pat rep : Str) (_hp : pat ≠ []) :
    ∀ (n : Nat) (s : Str), ¬ (pat <:+: s) → s.length ≤ n →
      replaceFuel pat rep n s = s := by
  intro n
  induction n with
  | zero =>
    intro s _ hn
    have hs : s = [] := List.length_eq_zero.mp (Nat.le_zero.mp hn)
    subst hs
    rfl
  | succ n ih =>
    intro s hocc hn
    cases s with
    | nil => rfl
    | cons c rest =>
      have hpre : ¬ (pat ≠ [] ∧ pat.isPrefixOf (c :: rest)) := by
        rintro ⟨-, hpf⟩
        exact hocc (List.isPrefixOf_iff_prefix.mp hpf).isInfix
      simp only [replaceFuel, if_neg hpre]
      rw [ih rest (fun hi => hocc (List.infix_cons hi)) (by simpa using hn)]

theorem replaceStr_no_occ (pat rep s : Str) (hp : pat ≠ []) (hocc : ¬ (pat <:+: s)) :
    replaceStr pat rep s = s :=
  replaceFuel_no_occ pat rep hp s.length s hocc (Nat.le_refl _)

theorem replaceStr_pat_append (pat rep s : Str) (hp : pat ≠ []) :
    replaceStr pat rep (pat ++ s) = rep ++ replaceStr pat rep s := by
  obtain ⟨c, cs, rfl⟩ := List.exists_cons_of_ne_nil hp
  have hshape : (c :: cs) ++ s = c :: (cs ++ s) := rfl
  have hpf : (c :: cs).isPrefixOf (c :: (cs ++ s)) = true :=
    List.isPrefixOf_iff_prefix.mpr (List.prefix_append _ _)
  unfold replaceStr
  rw [hshape]
  simp only [List.length_cons, replaceFuel, List.length_append]
  rw [if_pos ⟨hp, hpf⟩]
  have hdrop : List.drop (cs.length + 1) (c :: (cs ++ s)) = s := by
    rw [List.drop_succ_cons]
    exact List.drop_left cs s
  rw [hdrop]
  congr 1
  exact replaceFuel_irrel _ _ _ _ _ (by simp) (Nat.le_refl _)

/-!
## Claim theorems
-/

/-- C4: a Session constructed with rooms `[r1, ..., rn]` sends, in this
exact order, the CAP REQ line, the PASS line with the credential, the
NICK line, then one JOIN line per room in the configured order with no
batching and no dedup; with an empty room list the JOIN suffix is empty,
so no JOIN line is sent. -/
theorem handshake_line_order (oauth nick : Str) (rooms : List Str) :
    handshakeLines oauth nick rooms =
      capLine :: (strOf "PASS " ++ oauth) :: (strOf "NICK " ++ nick) ::
        rooms.map (fun r => strOf "JOIN " ++ r) := by
  unfold handshakeLines authenticateLines join_all
  cases rooms with
  | nil => simp
  | cons r rs => simp

/-- C3 counterexample: `send` does not append a CRLF terminator — the
transport payload for `send("NICK bot")` is `NICK bot`, not
`NICK bot\r\n`. -/
theorem send_no_crlf_cex :
    sendPayload (strOf "NICK bot") ≠ strOf "NICK bot" ++ strOf "\r\n" := by
  decide

/-- C3 (amended): the bytes handed to the transport by `send(rawLine)`
are exactly `rawLine`; no terminator of any kind is appended (the
WebSocket text frame carries the content as-is). -/
theorem send_payload_verbatim (m : Str) :
    sendPayload m = m ∧ ∀ t : Str, t ≠ [] → sendPayload m ≠ m ++ t := by
  refine ⟨rfl, ?_⟩
  intro t ht h
  have hlen := congrArg List.length h
  simp only [sendPayload, List.length_append] at hlen
  have : t.length = 0 := by omega
  exact ht (List.length_eq_zero.mp this)

/-- Closed instance of `send_payload_verbatim` at a concrete line and a
concrete nonempty suffix. -/
theorem send_payload_verbatim_witness :
    sendPayload (strOf "PASS token") = strOf "PASS token" ∧
    strOf "\r\n" ≠ ([] : Str) ∧
    sendPayload (strOf "PASS token") ≠ strOf "PASS token" ++ strOf "\r\n" :=
  ⟨(send_payload_verbatim (strOf "PASS token")).1, by decide,
   (send_payload_verbatim (strOf "PASS token")).2 (strOf "\r\n") (by decide)⟩

/-- C8: during the handshake the CAP REQ, PASS and NICK lines are the
first three lines sent regardless of the room list; all three sends
succeed exactly when the transport accepts each of them, in which case
they are written in order, and a failing send makes the whole
construction panic (flag `false`) instead of being swallowed. -/
theorem authenticate_unconditional (ok : Str → Bool) (oauth nick : Str) :
    ((sendAll ok (authenticateLines oauth nick)).2 = true ↔
      ∀ l ∈ authenticateLines oauth nick, ok l = true) ∧
    ((∀ l ∈ authenticateLines oauth nick, ok l = true) →
      (sendAll ok (authenticateLines oauth nick)).1 = authenticateLines oauth nick) ∧
    (∀ rooms : List Str, (handshakeLines oauth nick rooms).take 3 = authenticateLines oauth nick) := by
  refine ⟨sendAll_flag ok _, sendAll_lines ok _, ?_⟩
  intro rooms
  rfl

/-- Closed instance of `authenticate_unconditional` on an
always-accepting transport. -/
theorem authenticate_unconditional_witness :
    (∀ l ∈ authenticateLines (strOf "oauth:tok") (strOf "bot"), (fun _ => true) l = true) ∧
    (sendAll (fun _ => true) (authenticateLines (strOf "oauth:tok") (strOf "bot"))).1 =
      authenticateLines (strOf "oauth:tok") (strOf "bot") :=
  ⟨by decide,
   (authenticate_unconditional (fun _ => true) (strOf "oauth:tok") (strOf "bot")).2.1 (by decide)⟩

/-- C1 counterexample: on the spec's own end-to-end example the first
metadata key is `@badge-info`, not `badge-info`: the leading `@` is not
removed before the tag block is split on `;`, so looking up
`badge-info` finds nothing. -/
theorem tag_at_not_stripped_cex :
    parse_message exampleLine =
      some ⟨[(strOf "@badge-info", []),
             (strOf "badges", strOf "broadcaster/1"),
             (strOf "color", strOf "#FF0000")],
            strOf "steve", strOf "PRIVMSG",
            some (strOf "#madhousesteve"), strOf "Hello World"⟩ ∧
    (parse_message exampleLine).map
        (fun m => lookupKV m.metadata (strOf "badge-info")) = some none := by
  decide

/-- C1 (amended): the leading `@` is not removed before the tag block is
split: the block is split on `;` with the `@` still attached, so the
first entry's key keeps the `@` prefix while later entries are
unaffected; each entry is split on the first `=` only, with the
remainder rejoined (so a value may contain `=`, and `key=` yields the
empty value); a parsed tagged line's metadata is exactly the result of
this fold over the entries. -/
theorem tag_block_parsing (k v body tagTok fromTok cmd : Str) (rest : List Str)
    (hk : '=' ∉ k) (hb : tagTok.head? = some '@') (hf : fromTok ≠ []) :
    entryKV (k ++ '=' :: v) = (k, v) ∧
    entryKV (k ++ ['=']) = (k, []) ∧
    ('@' :: body).splitOn ';' = (body.splitOn ';').modifyHead (fun e => '@' :: e) ∧
    (parseChunks (tagTok :: fromTok :: cmd :: rest)).map DecodedMessage.metadata =
      some (parseTags tagTok) := by
  refine ⟨entryKV_eq k v hk, entryKV_eq k [] hk, ?_, ?_⟩
  · simp [List.splitOn, List.splitOnP_cons]
  · rw [parseChunks_tagged tagTok fromTok cmd rest hb hf]
    rfl

/-- Closed instance of `tag_block_parsing` on concrete tag data. -/
theorem tag_block_parsing_witness :
    ('=' ∉ strOf "badges") ∧ ((strOf "@x=1").head? = some '@') ∧ (strOf ":n" ≠ []) ∧
    (entryKV (strOf "badges" ++ '=' :: strOf "broadcaster/1") =
        (strOf "badges", strOf "broadcaster/1") ∧
     entryKV (strOf "badges" ++ ['=']) = (strOf "badges", []) ∧
     ('@' :: strOf "a=1;b=2").splitOn ';' =
        ((strOf "a=1;b=2").splitOn ';').modifyHead (fun e => '@' :: e) ∧
     (parseChunks [strOf "@x=1", strOf ":n", strOf "C"]).map DecodedMessage.metadata =
        some (parseTags (strOf "@x=1"))) :=
  ⟨by decide, by decide, by decide,
   tag_block_parsing (strOf "badges") (strOf "broadcaster/1") (strOf "a=1;b=2")
     (strOf "@x=1") (strOf ":n") (strOf "C") [] (by decide) (by decide) (by decide)⟩

/-- C5 counterexample: a tag entry with no `=` does not crash the
parser — the claimed hard failure does not happen: `@foo` is accepted
and bound to the empty value. -/
theorem malformed_tag_accepted_cex :
    parse_message (strOf "@foo :nick CMD") =
      some ⟨[(strOf "@foo", [])], strOf "nick", strOf "CMD", none, []⟩ := by
  decide

/-- C5 (amended): lines with too few tokens do fail hard — any
single-chunk line makes the parser panic, as does a tag block followed
by a single token, and concretely the empty line and a lone prefix
panic — but a tag entry lacking `=` is not a failure: it is silently
accepted, binding the whole entry to the empty value. -/
theorem parser_hard_failures (c tagTok e : Str)
    (ht : tagTok.head? = some '@') (he : '=' ∉ e) :
    parseChunks [c] = none ∧
    parseChunks [tagTok, c] = none ∧
    parse_message (strOf "") = none ∧
    parse_message (strOf ":tmi.twitch.tv") = none ∧
    entryKV e = (e, []) ∧
    parse_message (strOf "@tag :nick CMD") ≠ none :=
  ⟨parseChunks_singleton c, parseChunks_tag_one tagTok c ht, by decide, by decide,
   entryKV_no_sep e he, by decide⟩

/-- Closed instance of `parser_hard_failures` at concrete tokens. -/
theorem parser_hard_failures_witness :
    ((strOf "@a=b").head? = some '@') ∧ ('=' ∉ strOf "foo") ∧
    (parseChunks [strOf "PRIVMSG"] = none ∧
     parseChunks [strOf "@a=b", strOf "PRIVMSG"] = none ∧
     parse_message (strOf "") = none ∧
     parse_message (strOf ":tmi.twitch.tv") = none ∧
     entryKV (strOf "foo") = (strOf "foo", []) ∧
     parse_message (strOf "@tag :nick CMD") ≠ none) :=
  ⟨by decide, by decide,
   parser_hard_failures (strOf "PRIVMSG") (strOf "@a=b") (strOf "foo")
     (by decide) (by decide)⟩

/-- C10: when the tag block binds the same key more than once, the
metadata of the parsed line maps the key to the value of the last such
entry (the first hit scanning the entries in reverse), and the metadata
never holds two bindings for one key. -/
theorem metadata_last_occurrence (tagTok fromTok cmd q : Str) (rest : List Str)
    (h1 : tagTok.head? = some '@') (h2 : fromTok ≠ []) :
    ((parseChunks (tagTok :: fromTok :: cmd :: rest)).map
        (fun m => lookupKV m.metadata q)) =
      some ((((tagTok.splitOn ';').map entryKV).reverse.find?
        (fun e => e.1 = q)).map Prod.snd) ∧
    (∀ m, parseChunks (tagTok :: fromTok :: cmd :: rest) = some m →
      (m.metadata.map Prod.fst).Nodup) := by
  constructor
  · rw [parseChunks_tagged tagTok fromTok cmd rest h1 h2]
    exact congrArg some (lookupKV_parseTags tagTok q)
  · intro m hm
    rw [parseChunks_tagged tagTok fromTok cmd rest h1 h2] at hm
    obtain rfl := (Option.some.inj hm).symm
    exact nodup_keys_parseTags tagTok

/-- Closed instance of `metadata_last_occurrence` on a duplicated key:
the binding is the last one, `a=2`. -/
theorem metadata_last_occurrence_witness :
    ((strOf "@a=1;a=2").head? = some '@') ∧ (strOf ":n" ≠ []) ∧
    ((parseChunks [strOf "@a=1;a=2", strOf ":n", strOf "C"]).map
        (fun m => lookupKV m.metadata (strOf "a")) =
      some (((((strOf "@a=1;a=2").splitOn ';').map entryKV).reverse.find?
        (fun e => e.1 = strOf "a")).map Prod.snd)) ∧
    (parseChunks [strOf "@a=1;a=2", strOf ":n", strOf "C"]).map
        (fun m => lookupKV m.metadata (strOf "a")) = some (some (strOf "2")) :=
  ⟨by decide, by decide,
   (metadata_last_occurrence (strOf "@a=1;a=2") (strOf ":n") (strOf "C") (strOf "a") []
     (by decide) (by decide)).1,
   by decide⟩

/-- C6: `from` extraction strips the single leading `:` of the prefix
token, then truncates at the first `@`, then at the first `!`,
recovering the short nickname for the `nick!user@host`, `user@host` and
bare `host` prefix forms alike. -/
theorem from_short_nickname (nick user host cmd : Str) (rest : List Str)
    (hn1 : '@' ∉ nick) (hn2 : '!' ∉ nick) (hu1 : '@' ∉ user) (hu2 : '!' ∉ user)
    (hh1 : '@' ∉ host) (hh2 : '!' ∉ host) :
    ((parseChunks ((':' :: (nick ++ '!' :: (user ++ '@' :: host))) :: cmd :: rest)).map
        DecodedMessage.«from» = some nick) ∧
    ((parseChunks ((':' :: (user ++ '@' :: host)) :: cmd :: rest)).map
        DecodedMessage.«from» = some user) ∧
    ((parseChunks ((':' :: host) :: cmd :: rest)).map
        DecodedMessage.«from» = some host) := by
  refine ⟨?_, ?_, ?_⟩
  · rw [parseChunks_cons _ cmd rest
      (by simp only [List.head?_cons, ne_eq, Option.some.injEq]; decide) (by simp)]
    rw [Option.map_some']
    refine congrArg some ?_
    unfold fromField
    rw [List.tail_cons]
    have hassoc : nick ++ '!' :: (user ++ '@' :: host) =
        (nick ++ '!' :: user) ++ '@' :: host := by
      simp
    have hmem : '@' ∉ nick ++ '!' :: user := by
      intro hmem
      rcases List.mem_append.mp hmem with h | h
      · exact hn1 h
      · rcases List.mem_cons.mp h with h | h
        · exact absurd h (by decide)
        · exact hu1 h
    rw [hassoc, splitOn_headD_first '@' (nick ++ '!' :: user) host hmem]
    exact splitOn_headD_first '!' nick user hn2
  · rw [parseChunks_cons _ cmd rest
      (by simp only [List.head?_cons, ne_eq, Option.some.injEq]; decide) (by simp)]
    rw [Option.map_some']
    refine congrArg some ?_
    unfold fromField
    rw [List.tail_cons, splitOn_headD_first '@' user host hu1]
    exact splitOn_headD_single '!' user hu2
  · rw [parseChunks_cons _ cmd rest
      (by simp only [List.head?_cons, ne_eq, Option.some.injEq]; decide) (by simp)]
    rw [Option.map_some']
    refine congrArg some ?_
    unfold fromField
    rw [List.tail_cons, splitOn_headD_single '@' host hh1]
    exact splitOn_headD_single '!' host hh2

/-- Closed instance of `from_short_nickname` on the spec's prefix
`:steve!steve@steve.tmi.twitch.tv`. -/
theorem from_short_nickname_witness :
    ('@' ∉ strOf "steve") ∧ ('!' ∉ strOf "steve") ∧
    ('@' ∉ strOf "steve.tmi.twitch.tv") ∧ ('!' ∉ strOf "steve.tmi.twitch.tv") ∧
    (parseChunks ((':' :: (strOf "steve" ++ '!' :: (strOf "steve" ++ '@' :: strOf "steve.tmi.twitch.tv"))) :: strOf "PRIVMSG" :: [strOf "#chan"])).map
        DecodedMessage.«from» = some (strOf "steve") :=
  ⟨by decide, by decide, by decide, by decide,
   (from_short_nickname (strOf "steve") (strOf "steve") (strOf "steve.tmi.twitch.tv")
     (strOf "PRIVMSG") [strOf "#chan"]
     (by decide) (by decide) (by decide) (by decide) (by decide) (by decide)).1⟩

/-- C7: after the command token, no remaining tokens means `target` is
absent and `params` is empty; otherwise the next token is `target` and
the rest are rejoined with single spaces into `params`, from which
exactly one leading `:` is stripped when present.  Stated on the raw
line rebuilt from its space-free tokens. -/
theorem target_params_extraction (pre cmd : Str) (rest : List Str)
    (hsp : ∀ t ∈ pre :: cmd :: rest, ' ' ∉ t)
    (h1 : pre.head? ≠ some '@') (h2 : pre ≠ []) :
    (rest = [] →
       (parse_message (List.intercalate [' '] (pre :: cmd :: rest))).map
         (fun m => (m.target, m.params)) = some (none, [])) ∧
    (∀ t ps, rest = t :: ps →
       (parse_message (List.intercalate [' '] (pre :: cmd :: rest))).map
         (fun m => (m.target, m.params)) =
       some (some t,
         if (List.intercalate [' '] ps).head? = some ':' then (List.intercalate [' '] ps).tail
         else List.intercalate [' '] ps)) := by
  constructor
  · rintro rfl
    have hsplit : (List.intercalate [' '] (pre :: cmd :: [])).splitOn ' ' = pre :: cmd :: [] :=
      List.splitOn_intercalate (pre :: cmd :: []) ' ' hsp (by simp)
    unfold parse_message
    rw [hsplit, parseChunks_cons pre cmd [] h1 h2]
    rfl
  · rintro t ps rfl
    have hsplit : (List.intercalate [' '] (pre :: cmd :: t :: ps)).splitOn ' ' =
        pre :: cmd :: t :: ps :=
      List.splitOn_intercalate (pre :: cmd :: t :: ps) ' ' hsp (by simp)
    unfold parse_message
    rw [hsplit, parseChunks_cons pre cmd (t :: ps) h1 h2]
    rfl

/-- Closed instance of `target_params_extraction` on the line
`:n C #chan :hello world`, whose params keep their single leading colon
stripped. -/
theorem target_params_extraction_witness :
    (∀ t ∈ [strOf ":n", strOf "C", strOf "#chan", strOf ":hello", strOf "world"], ' ' ∉ t) ∧
    ((strOf ":n").head? ≠ some '@') ∧ (strOf ":n" ≠ []) ∧
    (parse_message (List.intercalate [' ']
        (strOf ":n" :: strOf "C" :: strOf "#chan" :: [strOf ":hello", strOf "world"]))).map
      (fun m => (m.target, m.params)) =
      some (some (strOf "#chan"),
        if (List.intercalate [' '] [strOf ":hello", strOf "world"]).head? = some ':'
        then (List.intercalate [' '] [strOf ":hello", strOf "world"]).tail
        else List.intercalate [' '] [strOf ":hello", strOf "world"]) :=
  ⟨by decide, by decide, by decide,
   (target_params_extraction (strOf ":n") (strOf "C") [strOf "#chan", strOf ":hello", strOf "world"]
     (by decide) (by decide) (by decide)).2 (strOf "#chan") [strOf ":hello", strOf "world"] rfl⟩

/-- C2 counterexample: the reply is built with `replace`, which
substitutes every occurrence of `PING `, not only the leading one: for
the sub-line `PING PING :x` the written reply is `PONG PONG :x`,
whereas a verbatim echo of the argument would give `PONG PING :x`. -/
theorem ping_replace_all_cex :
    pingPat.isPrefixOf (strOf "PING PING :x") = true ∧
    runLoop [strOf "PING PING :x"] = ([strOf "PONG PONG :x"], [], true) ∧
    strOf "PONG PONG :x" ≠ strOf "PONG PING :x" := by
  decide

/-- C2 (amended): a sub-line starting with `PING ` is answered with the
line in which every occurrence of `PING ` is replaced by `PONG `, and is
never forwarded to the queue; when the argument contains no further
occurrence of `PING ` the reply is `PONG ` followed by the argument
verbatim; in particular the read `PING :tmi.twitch.tv` produces exactly
the outgoing line `PONG :tmi.twitch.tv` and no queued message. -/
theorem ping_pong_reply (arg line : Str)
    (ha : ¬ (pingPat <:+: arg)) (hl : pingPat.isPrefixOf line = true) :
    runLoop [pingPat ++ arg] = ([pongPat ++ arg], [], true) ∧
    runLoop [line] = ([replaceStr pingPat pongPat line], [], true) ∧
    processRead (strOf "PING :tmi.twitch.tv\r\n") =
      ([strOf "PONG :tmi.twitch.tv"], [], true) := by
  refine ⟨?_, ?_, by decide⟩
  · have hpf : pingPat.isPrefixOf (pingPat ++ arg) = true :=
      List.isPrefixOf_iff_prefix.mpr (List.prefix_append _ _)
    simp only [runLoop, hpf, if_true]
    rw [replaceStr_pat_append _ _ _ (by decide), replaceStr_no_occ _ _ _ (by decide) ha]
  · simp only [runLoop, hl, if_true]

/-- Closed instance of `ping_pong_reply` on the keepalive probe. -/
theorem ping_pong_reply_witness :
    (¬ (pingPat <:+: strOf ":tmi.twitch.tv")) ∧
    (pingPat.isPrefixOf (strOf "PING hello") = true) ∧
    runLoop [pingPat ++ strOf ":tmi.twitch.tv"] =
      ([pongPat ++ strOf ":tmi.twitch.tv"], [], true) :=
  ⟨by decide, by decide,
   (ping_pong_reply (strOf ":tmi.twitch.tv") (strOf "PING hello")
     (by decide) (by decide)).1⟩

/-- C9: a single transport read holding several terminator-separated
protocol lines is processed sub-line by sub-line: PING sub-lines are
answered and never forwarded, every other sub-line is parsed and its
message enqueued, and the queue order is exactly the order of the
sub-lines in the read. -/
theorem multi_line_read_order (msg : Str)
    (hp : ∀ l ∈ subLines msg, pingPat.isPrefixOf l = false → (parse_message l).isSome) :
    processRead msg =
      (((subLines msg).filter (fun l => pingPat.isPrefixOf l)).map
          (replaceStr pingPat pongPat),
       ((subLines msg).filter (fun l => !(pingPat.isPrefixOf l))).filterMap parse_message,
       true) := by
  unfold processRead
  exact runLoop_eq _ hp

/-- Closed instance of `multi_line_read_order` on a three-line read:
one PING answered, two messages queued in order. -/
theorem multi_line_read_order_witness :
    (∀ l ∈ subLines exRead, pingPat.isPrefixOf l = false → (parse_message l).isSome) ∧
    processRead exRead =
      (((subLines exRead).filter (fun l => pingPat.isPrefixOf l)).map
          (replaceStr pingPat pongPat),
       ((subLines exRead).filter (fun l => !(pingPat.isPrefixOf l))).filterMap parse_message,
       true) ∧
    processRead exRead =
      ([strOf "PONG :a"],
       [⟨[], strOf "n", strOf "B", none, []⟩,
        ⟨[], strOf "m", strOf "C", some (strOf "t"), strOf "hi there"⟩],
       true) :=
  ⟨by decide, multi_line_read_order exRead (by decide), by decide⟩
